import Mathlib

/-!
# Verification of the Air Canvas colour-tracking pipeline

A shallow embedding of `src/air_canvas.py`: a single-threaded loop that, per
video frame, segments a colour mask, locates the largest blob, appends its
centroid to the active stroke, renders all strokes, and dispatches keyboard
commands.  The external vision library (OpenCV) is a collaborator: its
outputs for a frame (the contours found in the mask, each with its
`contourArea` and its moments `m00`, `m10`, `m01`) are inputs to the
embedding, modelled as exact rationals.
-/

namespace AirCanvas

/-- A contour as delivered by the vision library for one frame:
its enclosed area (`cv2.contourArea`) and its zeroth and first-order
moments (`cv2.moments`).  The library contract for contours of an image
mask: `area` and `m00` are nonnegative (OpenCV normalises the moment sign),
and `m10`, `m01` are nonnegative since pixel coordinates are nonnegative. -/
structure Contour where
  area : ℚ
  m00 : ℚ
  m10 : ℚ
  m01 : ℚ
deriving DecidableEq, Repr

/-- A centroid: a 2D integer point. -/
abbrev Point := ℤ × ℤ

/-- Python's `int()` applied to an exact quotient: truncation toward zero.
`Int.tdiv` is truncating division and a rational's numerator and denominator
are reduced, so this is exactly `int(num/den)`. -/
def pyInt (q : ℚ) : ℤ :=
  q.num.tdiv q.den

/-- Lines 71-72: `center_x = int(m10/m00)`, `center_y = int(m01/m00)`. -/
def centroidOf (c : Contour) : Point :=
  (pyInt (c.m10 / c.m00), pyInt (c.m01 / c.m00))

/-- Line 63: `max(contours, key=cv2.contourArea)`.  Python's `max` keeps the
first element seen and replaces it only on a strictly larger key, so ties are
broken by first-encountered order. -/
def selectLargest : List Contour → Option Contour
  | [] => none
  | c :: rest => some (rest.foldl (fun best x => if best.area < x.area then x else best) c)

/-- Lines 60-72: the blob locator.  From the contours of a frame, return the
centroid of the largest contour provided its area strictly exceeds 500 and
its `m00` moment is nonzero; otherwise no detection. -/
def blobLocate (cs : List Contour) : Option Point :=
  match selectLargest cs with
  | none => none
  | some c =>
    if c.area > 500 then
      if c.m00 ≠ 0 then some (centroidOf c) else none
    else none

/-- Lines 10-12: the canvas state.  `lines` is `points_to_draw`, a list of
strokes; `idx` is `current_line_index`, designating the active stroke. -/
structure CanvasState where
  lines : List (List Point)
  idx : ℕ
deriving DecidableEq, Repr

/-- Line 10 and line 99: `points_to_draw = [[]]`, `current_line_index = 0`. -/
def initState : CanvasState :=
  ⟨[[]], 0⟩

/-- Line 75: `points_to_draw[current_line_index].append(p)` — append `p` to
the `i`-th inner list, leaving the rest untouched.  (In reachable states `i`
is always in range; out of range nothing changes.) -/
def appendAt (p : Point) : List (List Point) → ℕ → List (List Point)
  | [], _ => []
  | l :: rest, 0 => (l ++ [p]) :: rest
  | l :: rest, Nat.succ i => l :: appendAt p rest i

/-- The active stroke `points_to_draw[current_line_index]`. -/
def activeStroke (s : CanvasState) : List Point :=
  s.lines.getD s.idx []

/-- Lines 60-75: the detection stage of one frame.  If the blob locator
yields a centroid, append it to the active stroke; otherwise the canvas
state is left untouched. -/
def detectStep (s : CanvasState) (cs : List Contour) : CanvasState :=
  match blobLocate cs with
  | none => s
  | some p => ⟨appendAt p s.lines s.idx, s.idx⟩

/-- Lines 79-84: the segments drawn for one stroke.  `for i in range(1,
len(line))` draws the segment from `line[i-1]` to `line[i]`, i.e. the list
pairs each point with its successor. -/
def strokeSegments (l : List Point) : List (Point × Point) :=
  l.zip l.tail

/-- Lines 79-84: all segments drawn for the whole canvas, stroke by stroke. -/
def renderSegments (s : CanvasState) : List (Point × Point) :=
  s.lines.flatMap strokeSegments

/-- The command a key press maps to. -/
inductive KeyAction where
  | clear
  | quit
  | other
deriving DecidableEq, Repr

/-- Line 96: `key = cv2.waitKey(1) & 0xFF`.  Masking a (possibly negative)
machine integer with `0xFF` is reduction modulo 256. -/
def maskKey (k : ℤ) : ℤ :=
  k % 256

/-- Lines 96-103: the key dispatch.  `ord('c') = 99` clears, `ord('q') = 113`
quits, anything else does nothing. -/
def keyAction (k : ℤ) : KeyAction :=
  if maskKey k = 99 then KeyAction.clear
  else if maskKey k = 113 then KeyAction.quit
  else KeyAction.other

/-- The per-frame inputs from the outside world: whether `cap.read()`
succeeded, the contours the vision library finds in the frame's colour mask,
and the raw key code returned by `cv2.waitKey(1)` (`-1` when no key). -/
structure FrameInput where
  success : Bool
  contours : List Contour
  key : ℤ
deriving Repr

/-- Lines 36-103: one iteration of the main loop.  Returns the canvas state
after the iteration and `true` iff the loop breaks (read failure or quit).
A failed read breaks before any processing; otherwise detection runs, the
frame is rendered, and the key is dispatched: `c` resets the canvas to a
single empty stroke, `q` breaks after the render. -/
def stepFrame (s : CanvasState) (f : FrameInput) : CanvasState × Bool :=
  if f.success then
    let s1 := detectStep s f.contours
    match keyAction f.key with
    | KeyAction.clear => (initState, false)
    | KeyAction.quit => (s1, true)
    | KeyAction.other => (s1, false)
  else (s, true)

/-- Observable events of a program run. -/
inductive Event where
  | frame
  | release
deriving DecidableEq, Repr

/-- The main loop over a (finite prefix of the) input stream: the final
canvas state, whether the loop terminated, and the event trace. -/
def loopRun (s : CanvasState) : List FrameInput → CanvasState × Bool × List Event
  | [] => (s, false, [])
  | f :: rest =>
    let r := stepFrame s f
    if r.2 then (r.1, true, [Event.frame])
    else
      let t := loopRun r.1 rest
      (t.1, t.2.1, Event.frame :: t.2.2)

/-- Lines 32-110: the whole program on an input stream.  If the loop
terminates, the cleanup code after it runs: `cap.release()` (line 108)
exactly once, after the last loop iteration.  A run that never leaves the
loop within the given inputs yields no terminating trace. -/
def programTrace (fs : List FrameInput) : Option (List Event) :=
  let t := loopRun initState fs
  if t.2.1 then some (t.2.2 ++ [Event.release]) else none

/-! ## Helper lemmas -/

/-- Truncation toward zero agrees with the floor on nonnegative rationals. -/
lemma pyInt_eq_floor (q : ℚ) (h : 0 ≤ q) : pyInt q = ⌊q⌋ := by
  rw [Rat.floor_def]
  exact Int.tdiv_eq_ediv (Rat.num_nonneg.mpr h) (Int.natCast_nonneg q.den)

/-- The running best of the fold over the remaining contours is one of them. -/
lemma foldl_best_mem (rest : List Contour) : ∀ c : Contour,
    rest.foldl (fun best x => if best.area < x.area then x else best) c ∈ c :: rest := by
  induction rest with
  | nil => intro c; simp
  | cons y ys ih =>
    intro c
    rw [List.foldl_cons]
    by_cases hy : c.area < y.area
    · simp only [if_pos hy]
      rcases List.mem_cons.mp (ih y) with h | h
      · simp [h]
      · simp [List.mem_cons.mpr (Or.inr h)]
    · simp only [if_neg hy]
      rcases List.mem_cons.mp (ih c) with h | h
      · simp [h]
      · simp [List.mem_cons.mpr (Or.inr h)]

/-- The running best of the fold dominates the start and every element. -/
lemma foldl_best_le (rest : List Contour) : ∀ c : Contour, ∀ x ∈ c :: rest,
    x.area ≤ (rest.foldl (fun best x => if best.area < x.area then x else best) c).area := by
  induction rest with
  | nil =>
    intro c x hx
    rcases List.mem_cons.mp hx with h | h
    · simp [h]
    · simp at h
  | cons y ys ih =>
    intro c x hx
    rw [List.foldl_cons]
    have hc : c.area ≤ (if c.area < y.area then y else c).area := by
      by_cases h : c.area < y.area <;> simp [h]
      exact le_of_lt h
    have hy : y.area ≤ (if c.area < y.area then y else c).area := by
      by_cases h : c.area < y.area <;> simp [h]
      exact le_of_not_lt h
    have hhead := ih (if c.area < y.area then y else c) _ (List.mem_cons_self _ _)
    rcases List.mem_cons.mp hx with rfl | h
    · exact le_trans hc hhead
    · rcases List.mem_cons.mp h with rfl | h
      · exact le_trans hy hhead
      · exact ih _ x (List.mem_cons.mpr (Or.inr h))

/-- The selected contour is a member of maximal area. -/
lemma selectLargest_spec (cs : List Contour) (c : Contour)
    (h : selectLargest cs = some c) : c ∈ cs ∧ ∀ x ∈ cs, x.area ≤ c.area := by
  cases cs with
  | nil => simp [selectLargest] at h
  | cons c0 rest =>
    have hc : c = rest.foldl (fun best x => if best.area < x.area then x else best) c0 := by
      simpa [selectLargest] using h.symm
    subst hc
    exact ⟨foldl_best_mem rest c0, foldl_best_le rest c0⟩

/-- A mask with no contours yields no selection. -/
lemma selectLargest_nil : selectLargest [] = none := rfl

/-- Appending a point at an index preserves the number of strokes. -/
lemma appendAt_length (p : Point) : ∀ (ls : List (List Point)) (i : ℕ),
    (appendAt p ls i).length = ls.length := by
  intro ls
  induction ls with
  | nil => intro i; rfl
  | cons l rest ih =>
    intro i
    cases i with
    | zero => rfl
    | succ j => simp [appendAt, ih]

/-- Appending at an in-range index appends to that stroke. -/
lemma appendAt_getD (p : Point) : ∀ (ls : List (List Point)) (i : ℕ), i < ls.length →
    (appendAt p ls i).getD i [] = ls.getD i [] ++ [p] := by
  intro ls
  induction ls with
  | nil => intro i h; simp at h
  | cons l rest ih =>
    intro i h
    cases i with
    | zero => simp [appendAt]
    | succ j =>
      simp only [appendAt, List.getD_cons_succ]
      exact ih j (by simpa using h)

/-- Appending at an out-of-range index changes nothing. -/
lemma appendAt_of_le (p : Point) : ∀ (ls : List (List Point)) (i : ℕ), ls.length ≤ i →
    appendAt p ls i = ls := by
  intro ls
  induction ls with
  | nil => intro i _; rfl
  | cons l rest ih =>
    intro i h
    cases i with
    | zero => simp at h
    | succ j =>
      simp only [appendAt]
      exact congrArg _ (ih j (by simpa using h))

/-- The detection stage never changes the number of strokes. -/
lemma detectStep_lines_length (s : CanvasState) (cs : List Contour) :
    (detectStep s cs).lines.length = s.lines.length := by
  unfold detectStep
  cases blobLocate cs with
  | none => rfl
  | some p => simp [appendAt_length]

/-- One loop iteration keeps at least one stroke. -/
lemma stepFrame_lines_ne_nil (s : CanvasState) (f : FrameInput)
    (h : s.lines ≠ []) : ((stepFrame s f).1).lines ≠ [] := by
  unfold stepFrame
  by_cases hs : f.success
  · simp only [hs, if_true]
    cases hk : keyAction f.key
    · simp [initState]
    · simpa [← List.length_pos, detectStep_lines_length] using
        List.length_pos.mpr h
    · simpa [← List.length_pos, detectStep_lines_length] using
        List.length_pos.mpr h
  · simpa [hs] using h

/-- Running the loop from a state with at least one stroke keeps one. -/
lemma loopRun_lines_ne_nil : ∀ (fs : List FrameInput) (s : CanvasState),
    s.lines ≠ [] → ((loopRun s fs).1).lines ≠ [] := by
  intro fs
  induction fs with
  | nil => intro s h; exact h
  | cons f rest ih =>
    intro s h
    unfold loopRun
    by_cases hb : (stepFrame s f).2
    · simpa [hb] using stepFrame_lines_ne_nil s f h
    · simpa [hb] using ih _ (stepFrame_lines_ne_nil s f h)

/-- Every event emitted inside the loop is a frame event. -/
lemma loopRun_trace_frames : ∀ (fs : List FrameInput) (s : CanvasState),
    ∀ e ∈ (loopRun s fs).2.2, e = Event.frame := by
  intro fs
  induction fs with
  | nil => intro s e he; simp [loopRun] at he
  | cons f rest ih =>
    intro s e he
    unfold loopRun at he
    by_cases hb : (stepFrame s f).2
    · simp [hb] at he
      exact he
    · simp [hb] at he
      rcases he with he | he
      · exact he
      · exact ih _ e he

/-! ## Claims -/

/-- C1: For every contour selected by the pipeline whose zeroth-order moment
`m00` is nonzero and whose area exceeds the minimum-size threshold, the
recorded centroid equals exactly `(⌊m10/m00⌋, ⌊m01/m00⌋)`, computed from the
zeroth and first-order moments; under the vision library's contract for
image contours (`0 < m00` after sign normalisation, `0 ≤ m10`, `0 ≤ m01`)
Python's truncation toward zero agrees with the floor. -/
theorem c1_centroid_floor (cs : List Contour) (c : Contour)
    (hsel : selectLargest cs = some c) (harea : c.area > 500)
    (h00 : 0 < c.m00) (h10 : 0 ≤ c.m10) (h01 : 0 ≤ c.m01) :
    blobLocate cs = some (⌊c.m10 / c.m00⌋, ⌊c.m01 / c.m00⌋) := by
  simp only [blobLocate, hsel]
  rw [if_pos harea, if_pos h00.ne']
  simp only [centroidOf]
  rw [pyInt_eq_floor _ (div_nonneg h10 h00.le),
    pyInt_eq_floor _ (div_nonneg h01 h00.le)]

/-- C1 witness: a single contour of area 501, `m00 = 1`, `m10 = 7`,
`m01 = 3` is detected with centroid `(7, 3)`. -/
theorem c1_centroid_floor_witness :
    blobLocate [⟨501, 1, 7, 3⟩] = some (7, 3) := by
  have h := c1_centroid_floor [⟨501, 1, 7, 3⟩] ⟨501, 1, 7, 3⟩
    (by decide) (by norm_num) (by norm_num) (by norm_num) (by norm_num)
  simpa using h

/-- C2 counterexample: a maximal contour of area exactly 500 (with nonzero
`m00`) produces no detection, contradicting the claim that area exactly 500
is not below the threshold and therefore yields a detection: line 66 tests
`area > 500` strictly. -/
theorem c2_boundary_counterexample :
    (⟨500, 1, 1, 1⟩ : Contour).area = 500 ∧
    (⟨500, 1, 1, 1⟩ : Contour).m00 ≠ 0 ∧
    blobLocate [⟨500, 1, 1, 1⟩] = none := by
  refine ⟨rfl, by decide, by decide⟩

/-- C2 (amended): the pipeline selects a contour of maximal enclosed area
(first encountered on ties) and returns no detection whenever that maximal
area is at most 500; in particular a maximal contour of area exactly 500 is
rejected, and detection requires area strictly greater than 500. -/
theorem c2_area_threshold (cs : List Contour) (c : Contour)
    (hsel : selectLargest cs = some c) :
    (c ∈ cs ∧ ∀ x ∈ cs, x.area ≤ c.area) ∧
    (c.area ≤ 500 → blobLocate cs = none) := by
  refine ⟨selectLargest_spec cs c hsel, fun hle => ?_⟩
  simp only [blobLocate, hsel]
  rw [if_neg (not_lt.mpr hle)]

/-- C2 witness: on a mask with contours of areas 500 and 400, the first is
selected as maximal and, its area being at most 500, no detection occurs. -/
theorem c2_area_threshold_witness :
    ((⟨500, 1, 1, 1⟩ : Contour) ∈ [(⟨500, 1, 1, 1⟩ : Contour), ⟨400, 2, 2, 2⟩] ∧
      ∀ x ∈ [(⟨500, 1, 1, 1⟩ : Contour), ⟨400, 2, 2, 2⟩],
        x.area ≤ (⟨500, 1, 1, 1⟩ : Contour).area) ∧
    ((⟨500, 1, 1, 1⟩ : Contour).area ≤ 500 →
      blobLocate [⟨500, 1, 1, 1⟩, ⟨400, 2, 2, 2⟩] = none) :=
  c2_area_threshold [⟨500, 1, 1, 1⟩, ⟨400, 2, 2, 2⟩] ⟨500, 1, 1, 1⟩ (by decide)

/-- C4: issuing Clear on a successfully read frame resets the canvas to
exactly one empty stroke with the active index designating it, regardless
of the accumulated state. -/
theorem c4_clear_resets (s : CanvasState) (f : FrameInput)
    (hs : f.success = true) (hc : keyAction f.key = KeyAction.clear) :
    (stepFrame s f).1.lines = [[]] ∧ (stepFrame s f).1.idx = 0 := by
  simp [stepFrame, hs, hc, initState]

/-- C4 witness: pressing key 99 after accumulating two strokes of points
resets the canvas to one empty stroke. -/
theorem c4_clear_resets_witness :
    (stepFrame ⟨[[(1, 1), (2, 2)], [(5, 5)]], 0⟩ ⟨true, [], 99⟩).1.lines = [[]] ∧
    (stepFrame ⟨[[(1, 1), (2, 2)], [(5, 5)]], 0⟩ ⟨true, [], 99⟩).1.idx = 0 :=
  c4_clear_resets ⟨[[(1, 1), (2, 2)], [(5, 5)]], 0⟩ ⟨true, [], 99⟩ rfl (by decide)

/-- C5: on a frame with no detection — no contour at all, maximal contour
area not above the threshold, or degenerate `m00 = 0` — the detection stage
leaves the whole canvas state unchanged, and the existing strokes render
exactly as before. -/
theorem c5_no_detection_no_mutation (s : CanvasState) (cs : List Contour)
    (h : cs = [] ∨ ∃ c, selectLargest cs = some c ∧ (c.area ≤ 500 ∨ c.m00 = 0)) :
    detectStep s cs = s ∧ renderSegments (detectStep s cs) = renderSegments s := by
  have hnone : blobLocate cs = none := by
    rcases h with rfl | ⟨c, hsel, hc⟩
    · rfl
    · simp only [blobLocate, hsel]
      rcases hc with hle | h00
      · rw [if_neg (not_lt.mpr hle)]
      · by_cases harea : c.area > 500
        · rw [if_pos harea, if_neg (by simpa using h00)]
        · rw [if_neg harea]
  constructor
  · simp [detectStep, hnone]
  · simp [detectStep, hnone]

/-- C5 witness: a frame whose only contour has area 400 leaves a canvas
with one two-point stroke untouched. -/
theorem c5_no_detection_no_mutation_witness :
    detectStep ⟨[[(1, 1), (2, 2)]], 0⟩ [⟨400, 1, 1, 1⟩] = ⟨[[(1, 1), (2, 2)]], 0⟩ ∧
    renderSegments (detectStep ⟨[[(1, 1), (2, 2)]], 0⟩ [⟨400, 1, 1, 1⟩]) =
      renderSegments ⟨[[(1, 1), (2, 2)]], 0⟩ :=
  c5_no_detection_no_mutation ⟨[[(1, 1), (2, 2)]], 0⟩ [⟨400, 1, 1, 1⟩]
    (Or.inr ⟨⟨400, 1, 1, 1⟩, by decide, Or.inl (by norm_num)⟩)

/-- C7: the centroid computation never divides by zero: if the selected
largest contour has `m00 = 0` the locator returns no detection, and any
returned centroid comes from a contour whose `m00` is nonzero (and whose
area exceeds the threshold), so the divisions `m10/m00` and `m01/m00` are
evaluated only under `m00 ≠ 0`. -/
theorem c7_no_division_by_zero (cs : List Contour) :
    (∀ c, selectLargest cs = some c → c.m00 = 0 → blobLocate cs = none) ∧
    (∀ p, blobLocate cs = some p →
      ∃ c, selectLargest cs = some c ∧ c.m00 ≠ 0 ∧ c.area > 500 ∧ p = centroidOf c) := by
  constructor
  · intro c hsel h00
    simp only [blobLocate, hsel]
    by_cases harea : c.area > 500
    · rw [if_pos harea, if_neg (by simpa using h00)]
    · rw [if_neg harea]
  · intro p hp
    cases hsel : selectLargest cs with
    | none => simp only [blobLocate, hsel] at hp; exact absurd hp (by simp)
    | some c =>
      simp only [blobLocate, hsel] at hp
      by_cases harea : c.area > 500
      · rw [if_pos harea] at hp
        by_cases h00 : c.m00 ≠ 0
        · rw [if_pos h00] at hp
          exact ⟨c, rfl, h00, harea, (Option.some_injective _ hp).symm⟩
        · rw [if_neg h00] at hp
          exact absurd hp (by simp)
      · rw [if_neg harea] at hp
        exact absurd hp (by simp)

/-- C7 witness: a large degenerate contour with `m00 = 0` yields no
detection. -/
theorem c7_no_division_by_zero_witness :
    blobLocate [⟨501, 0, 1, 1⟩] = none :=
  (c7_no_division_by_zero [⟨501, 0, 1, 1⟩]).1 ⟨501, 0, 1, 1⟩ (by decide) rfl

/-- The detection stage either leaves the active stroke alone or appends
exactly one point at its end. -/
lemma detectStep_activeStroke (s : CanvasState) (cs : List Contour) :
    activeStroke (detectStep s cs) = activeStroke s ∨
    ∃ p : Point, activeStroke (detectStep s cs) = activeStroke s ++ [p] := by
  unfold detectStep
  cases hb : blobLocate cs with
  | none => exact Or.inl rfl
  | some p =>
    by_cases hi : s.idx < s.lines.length
    · refine Or.inr ⟨p, ?_⟩
      unfold activeStroke
      exact appendAt_getD p s.lines s.idx hi
    · refine Or.inl ?_
      unfold activeStroke
      show (appendAt p s.lines s.idx).getD s.idx [] = s.lines.getD s.idx []
      rw [appendAt_of_le p s.lines s.idx (le_of_not_lt hi)]

/-- C3: at every reachable state the canvas holds at least one stroke; every
loop iteration either performs the clear reset or changes the active stroke
only by appending at most one point at its end — it never shrinks or
reorders it; and feeding centroids (1,1), (2,2), (3,3) on three successive
detection frames from a fresh canvas yields the active stroke
[(1,1),(2,2),(3,3)] in order. -/
theorem c3_stroke_invariant :
    (∀ fs : List FrameInput, ((loopRun initState fs).1).lines ≠ []) ∧
    (∀ (s : CanvasState) (f : FrameInput),
      ((stepFrame s f).1 = initState ∧ keyAction f.key = KeyAction.clear) ∨
      activeStroke (stepFrame s f).1 = activeStroke s ∨
      ∃ p : Point, activeStroke (stepFrame s f).1 = activeStroke s ++ [p]) ∧
    activeStroke (loopRun initState
      [⟨true, [⟨501, 1, 1, 1⟩], 0⟩, ⟨true, [⟨501, 1, 2, 2⟩], 0⟩,
        ⟨true, [⟨501, 1, 3, 3⟩], 0⟩]).1 = [(1, 1), (2, 2), (3, 3)] := by
  refine ⟨fun fs => loopRun_lines_ne_nil fs initState (by simp [initState]), ?_, ?_⟩
  · intro s f
    by_cases hs : f.success
    · cases hk : keyAction f.key
      · exact Or.inl ⟨by simp [stepFrame, hs, hk], rfl⟩
      · have h1 : (stepFrame s f).1 = detectStep s f.contours := by
          simp [stepFrame, hs, hk]
        rw [h1]
        exact Or.inr (detectStep_activeStroke s f.contours)
      · have h1 : (stepFrame s f).1 = detectStep s f.contours := by
          simp [stepFrame, hs, hk]
        rw [h1]
        exact Or.inr (detectStep_activeStroke s f.contours)
    · have h1 : (stepFrame s f).1 = s := by simp [stepFrame, hs]
      rw [h1]
      exact Or.inr (Or.inl rfl)
  · simp [loopRun, stepFrame, detectStep, blobLocate, selectLargest, centroidOf,
      pyInt, keyAction, maskKey, initState, appendAt, activeStroke]
    norm_num

/-- C6: the renderer draws, for each stroke of length `k`, exactly `k - 1`
segments (so zero for strokes of 0 or 1 points), the `i`-th segment
connecting the `i`-th and `(i+1)`-th points of the stroke in order; the
render stage only reads the strokes and mutates nothing. -/
theorem c6_render_segments (l : List Point) :
    (strokeSegments l).length = l.length - 1 ∧
    ∀ i : ℕ, i + 1 < l.length →
      (strokeSegments l).getD i ((0, 0), (0, 0)) =
        (l.getD i (0, 0), l.getD (i + 1) (0, 0)) := by
  have hlen : (strokeSegments l).length = l.length - 1 := by
    rw [strokeSegments, List.length_zip, List.length_tail]
    exact min_eq_right (Nat.sub_le _ _)
  refine ⟨hlen, fun i hi => ?_⟩
  have h1 : i < l.length := by omega
  have hseg : i < (strokeSegments l).length := by omega
  rw [List.getD_eq_getElem _ _ hseg, List.getD_eq_getElem _ _ h1,
    List.getD_eq_getElem _ _ hi]
  show (l.zip l.tail)[i] = _
  rw [List.getElem_zip, List.getElem_tail]

/-- C6 witness: the three-point stroke (0,0), (1,1), (2,2) yields exactly
two segments and its first segment joins (0,0) to (1,1). -/
theorem c6_render_segments_witness :
    (strokeSegments [((0 : ℤ), (0 : ℤ)), (1, 1), (2, 2)]).length = 2 ∧
    (strokeSegments [((0 : ℤ), (0 : ℤ)), (1, 1), (2, 2)]).getD 0 ((0, 0), (0, 0)) =
      ((0, 0), (1, 1)) := by
  refine ⟨(c6_render_segments [((0 : ℤ), (0 : ℤ)), (1, 1), (2, 2)]).1, ?_⟩
  have h := (c6_render_segments [((0 : ℤ), (0 : ℤ)), (1, 1), (2, 2)]).2 0 (by norm_num)
  simpa using h

/-- C8 counterexample: key code 355 is neither 99 (the code of the clear
key) nor 113 (the code of the quit key), yet because line 96 masks the key
with 0xFF it fires the clear command and resets a nonempty canvas — so it
is not true that every key code other than those of the two commands leaves
the canvas unchanged. -/
theorem c8_other_keys_counterexample :
    (355 : ℤ) ≠ 99 ∧ (355 : ℤ) ≠ 113 ∧
    stepFrame ⟨[[(1, 1)]], 0⟩ ⟨true, [], 355⟩ = (initState, false) ∧
    (⟨[[(1, 1)]], 0⟩ : CanvasState) ≠ initState := by
  refine ⟨by decide, by decide, by decide, by decide⟩

/-- C8 (amended): on a successfully read frame, a key whose masked (mod 256)
code is 99 triggers Clear and 113 triggers Quit; every key whose masked code
is neither — including the no-key sentinel -1 — leaves the canvas unchanged
beyond the detection stage and does not terminate the loop. -/
theorem c8_key_dispatch (s : CanvasState) (f : FrameInput)
    (hs : f.success = true) :
    (keyAction f.key = KeyAction.other →
      stepFrame s f = (detectStep s f.contours, false)) ∧
    (keyAction f.key = KeyAction.clear → stepFrame s f = (initState, false)) ∧
    (keyAction f.key = KeyAction.quit →
      stepFrame s f = (detectStep s f.contours, true)) ∧
    keyAction (-1) = KeyAction.other := by
  refine ⟨fun h => by simp [stepFrame, hs, h], fun h => by simp [stepFrame, hs, h],
    fun h => by simp [stepFrame, hs, h], by decide⟩

/-- C8 witness: key code 200 has no effect on a fresh canvas and does not
stop the loop. -/
theorem c8_key_dispatch_witness :
    stepFrame initState ⟨true, [], 200⟩ = (detectStep initState [], false) :=
  (c8_key_dispatch initState ⟨true, [], 200⟩ rfl).1 (by decide)

/-- C9: the claim requires the capture handle to be released exactly once
on every terminating execution, including abnormal exits.  The source
releases only on the loop's fall-through path (line 108 runs after a break
at line 39 or line 103); there is no try/finally, so an exception raised
mid-loop would bypass the release entirely, violating the obligation for
abnormal exits.  This theorem verifies the two exit paths the code does
have: on every run terminated by a failed read or the quit key, the release
event occurs exactly once and after the last loop iteration. -/
theorem c9_release_exactly_once (fs : List FrameInput) (tr : List Event)
    (h : programTrace fs = some tr) :
    tr.count Event.release = 1 ∧ tr.getLast? = some Event.release := by
  unfold programTrace at h
  by_cases hb : (loopRun initState fs).2.1
  · simp only [hb, if_true] at h
    obtain rfl : (loopRun initState fs).2.2 ++ [Event.release] = tr :=
      Option.some_injective _ h
    have h0 : (loopRun initState fs).2.2.count Event.release = 0 := by
      rw [List.count_eq_zero]
      intro hmem
      exact absurd (loopRun_trace_frames fs initState _ hmem) (by decide)
    constructor
    · rw [List.count_append, h0]
      rfl
    · exact List.getLast?_concat _
  · simp [hb] at h

/-- C9 witness: a single failed frame read terminates the loop and the
trace ends with exactly one release event. -/
theorem c9_release_exactly_once_witness :
    [Event.frame, Event.release].count Event.release = 1 ∧
    [Event.frame, Event.release].getLast? = some Event.release :=
  c9_release_exactly_once [⟨false, [], 0⟩] [Event.frame, Event.release] (by decide)

/-- C10: key codes are interpreted modulo 256: Clear fires iff the key is
congruent to 99 mod 256 and Quit iff congruent to 113 mod 256; the no-key
sentinel -1 masks to 255 and is ignored, while the extended codes 355 and
369, whose low bytes are 99 and 113, trigger Clear and Quit. -/
theorem c10_key_mask_mod256 :
    (∀ k : ℤ, (keyAction k = KeyAction.clear ↔ k % 256 = 99)) ∧
    (∀ k : ℤ, (keyAction k = KeyAction.quit ↔ k % 256 = 113)) ∧
    (-1 : ℤ) % 256 = 255 ∧ keyAction (-1) = KeyAction.other ∧
    keyAction 355 = KeyAction.clear ∧ keyAction 369 = KeyAction.quit := by
  refine ⟨fun k => ?_, fun k => ?_, by decide, by decide, by decide, by decide⟩
  · unfold keyAction maskKey
    by_cases h1 : k % 256 = 99
    · simp [h1]
    · by_cases h2 : k % 256 = 113 <;> simp [h1, h2]
  · unfold keyAction maskKey
    by_cases h1 : k % 256 = 99
    · simp [h1]
    · by_cases h2 : k % 256 = 113 <;> simp [h1, h2]

end AirCanvas
